import Mathlib

/-!
Verification development for the `deno-pages-file` paged storage library.

The definitions below are a shallow embedding of the TypeScript sources:

* `Facade` embeds `PagedBufferFacade` from `src/buffer/BufferFacade.ts`
  (the overflow walker shared by reads and writes), instantiated the way
  `Page` instantiates it in `src/Page.ts` (pages are fixed-capacity byte
  buffers, write mode appends fresh zero pages).
* `Store` embeds the addressed page store: page blocks from
  `src/PageBlock.ts`, and the free-list / allocator / delete logic of the
  `PagedFile` class (`getLastEmptylistPage`, `getEmptyPageAddr`,
  `addAddrToEmptylist`, `deleteDataPageBlock`, `writeToDataPage`), plus the
  `Page` content-facade callbacks (`getNextPage` / `deleteNextPage`).
* `SaveM` embeds `PagedFile.save` together with `PageBlock.writeTo`
  (byte-level file image), and `checkBlockCache` (the LRU clean-block
  eviction walk).
* `CloseM` embeds `PagedFile.close` and the closed-file guards of the
  public operations.
* `AliasM` tracks whether a returned buffer is a fresh copy or a view into
  a cached page buffer, following the `read` / `UNSAFE_ACCESS` data flow.

Machine integers: all the quantities involved (addresses, counts, byte
values) are small nonnegative integers in the source (u16 header fields,
byte values 0..255); they are modelled as `Nat`.  No arithmetic in the
modelled code paths can overflow a JavaScript number, so no wrap-around is
modelled.
-/

set_option autoImplicit false

namespace DenoPagesFile

/-- Error kinds raised by the modelled code paths.  Each constructor
corresponds to one `throw new Error(...)` site in the source (plus
`fuelOut`, an artifact of modelling the source's loops with explicit
fuel: the source loops terminate on the states we reason about, and all
theorems supply enough fuel). -/
inductive Err where
  /-- `Page type mismatch` -/
  | typeMismatch
  /-- `Range exceeded.` -/
  | rangeExceeded
  /-- `What ?` (address beyond `memoryPageCount`) -/
  | addrSanity
  /-- `Out of range read` -/
  | outOfRange
  /-- `Out of range write` -/
  | outOfRangeWrite
  /-- `Cannot pop empty list: no addrs` -/
  | popEmpty
  /-- `Found 0 in freelist ?` -/
  | zeroInFreelist
  /-- `Cannot push into full empty list` -/
  | fullPush
  /-- `Cannot write closed page` (PageBlock.writeTo) -/
  | closedPage
  /-- `Cannot read/write closed file` -/
  | closedFile
  /-- Deno `BadResource`: the underlying file handle was already closed -/
  | badResource
  /-- fuel exhaustion (modelling artifact, see above) -/
  | fuelOut
  deriving DecidableEq, Repr

/-- Decidable equality for `Except` results, so that concrete evaluations
of the modelled operations can be settled by `decide`. -/
instance {ε α : Type} [DecidableEq ε] [DecidableEq α] : DecidableEq (Except ε α) := fun x y =>
  match x, y with
  | .ok a, .ok b => if h : a = b then .isTrue (by rw [h]) else .isFalse (by simp [h])
  | .error a, .error b => if h : a = b then .isTrue (by rw [h]) else .isFalse (by simp [h])
  | .ok _, .error _ => .isFalse (by simp)
  | .error _, .ok _ => .isFalse (by simp)

namespace Facade

/-- Content of one page buffer handed out by `getNextPage`: a byte list of
fixed length (the page's content capacity). -/
abbrev PageBuf := List Nat

/-- `PagedBufferFacade[UNSAFE_ACCESS]` (BufferFacade.ts lines 344-382),
finite `length` case.  `pages` is the sequence of buffers produced by
`getNextPage` in read mode (a `null` result corresponds to the end of the
list), `skip` is the running `skipRest`, `len` the running `readRest`.
When the pages run out before `readRest` reaches zero the source throws
`Out of range read`; when `readRest` reaches zero after a copy the loop
breaks and the assembled result is returned. -/
def readRange : Nat → List PageBuf → Nat → Nat → Except Err (List Nat)
  | 0, _, _, _ => .error .fuelOut
  | _ + 1, [], _, _ => .error .outOfRange
  | fuel + 1, p :: tl, skip, len =>
    if p.length ≤ skip then readRange fuel tl (skip - p.length) len
    else
      let rs := min (p.length - skip) len
      let chunk := (p.drop skip).take rs
      if len - rs = 0 then .ok chunk
      else do
        let rest ← readRange fuel tl 0 (len - rs)
        .ok (chunk ++ rest)

/-- `PagedBufferFacade[UNSAFE_ACCESS]` with `length === undefined`: every
page from the start offset onward is copied in full and the loop breaks
when `getNextPage` returns `null`. -/
def readAll : Nat → List PageBuf → Nat → Except Err (List Nat)
  | 0, _, _ => .error .fuelOut
  | _ + 1, [], _ => .ok []
  | fuel + 1, p :: tl, skip =>
    if p.length ≤ skip then readAll fuel tl (skip - p.length)
    else do
      let rest ← readAll fuel tl 0
      .ok (p.drop skip ++ rest)

/-- `PagedBufferFacade.writeInternal` (BufferFacade.ts lines 481-516)
composed with the `getNextPage` write-mode callback that `Page` installs
(Page.ts lines 650-671): when the walker steps past the end of the chain a
fresh all-zero data page of capacity `dcap` is allocated and linked.
Returns the updated page sequence.  `skip` is `skipRest` and `rest` is
`writeRest`; the loop breaks once `writeRest` is empty. -/
def writeLoop (dcap : Nat) : Nat → List PageBuf → Nat → List Nat → Option (List PageBuf)
  | 0, _, _, _ => none
  | fuel + 1, pages, skip, rest =>
    let p := match pages with
      | [] => List.replicate dcap 0
      | q :: _ => q
    let tl := match pages with
      | [] => ([] : List PageBuf)
      | _ :: t => t
    if p.length ≤ skip then
      match writeLoop dcap fuel tl (skip - p.length) rest with
      | none => none
      | some tl2 => some (p :: tl2)
    else
      let ws := min (p.length - skip) rest.length
      let p2 := p.take skip ++ rest.take ws ++ p.drop (skip + ws)
      if rest.length - ws = 0 then some (p2 :: tl)
      else
        match writeLoop dcap fuel tl 0 (rest.drop ws) with
        | none => none
        | some tl2 => some (p2 :: tl2)

end Facade

namespace Store

/-- A decoded page block (PageBlock.ts): the variants of the block cache.
`elist` entries model the stored address slots `0 .. count-1` (the
`count` header field is the list length).  Content lists model the byte
region after the header, of fixed length (the page's content capacity). -/
inductive Blk where
  | empty
  | elist (prevPage nextPage : Nat) (entries : List Nat)
  | data (prevPage nextPage : Nat) (content : List Nat)
  | entry (ty prevPage nextPage : Nat) (content : List Nat)
  deriving DecidableEq, Repr

/-- Store state: the merged cache-over-file view of all non-root pages
(`blocks`, an association list address to block: the block cache entry when
present, the decoded on-disk page otherwise), the root page's header fields
and content, the two page counters, and the per-file capacities
(`elCapacity` is the free-list slot capacity, `dcap` the content capacity
of data and entry pages). -/
structure St where
  emptylistAddr : Nat
  rootNextPage : Nat
  rootContent : List Nat
  blocks : List (Nat × Blk)
  filePageCount : Nat
  memoryPageCount : Nat
  elCapacity : Nat
  dcap : Nat
  deriving DecidableEq, Repr

/-- Expected block type passed to `getPageBlock`: `PageBlockType.Emptylist`,
`PageBlockType.Data`, or an entry type (`some ty` for an exact entry type
byte, `none` for "any entry type", mirroring `expectedType === null`). -/
inductive Kind where
  | elistK
  | dataK
  | entryK (ty : Option Nat)
  deriving DecidableEq, Repr

/-- Look up the block stored at an address. -/
def lookupBlk (s : St) (a : Nat) : Option Blk :=
  s.blocks.lookup a

/-- Replace (or insert) the block at an address in the association list. -/
def setBlkList : List (Nat × Blk) → Nat → Blk → List (Nat × Blk)
  | [], a, b => [(a, b)]
  | (k, v) :: tl, a, b => if k = a then (a, b) :: tl else (k, v) :: setBlkList tl a b

/-- `cache.set(addr, block)`. -/
def setBlk (s : St) (a : Nat) (b : Blk) : St :=
  { s with blocks := setBlkList s.blocks a b }

/-- Fresh zero-buffer block of the expected type, as built by the
`PageBlockType.Empty` promotion and new-page paths of `getPageBlock` /
`getPageBuffer` (a zero buffer decodes to zero header fields and zero
content; `expectedType ?? PageBlockType.Entry` resolves `none` to the
base entry type 4). -/
def freshBlk (s : St) : Kind → Blk
  | .elistK => .elist 0 0 []
  | .dataK => .data 0 0 (List.replicate s.dcap 0)
  | .entryK ty => .entry (ty.getD 4) 0 0 (List.replicate s.dcap 0)

/-- `ensureTypeMatch` (part_005 lines 1214-1229): `null` expected type
accepts any entry type, otherwise the stored type must be equal. -/
def kindMatches : Kind → Blk → Bool
  | .elistK, .elist _ _ _ => true
  | .dataK, .data _ _ _ => true
  | .entryK none, .entry _ _ _ _ => true
  | .entryK (some ty), .entry t _ _ _ => t = ty
  | _, _ => false

/-- `getPageBlock` (part_005 lines 1276-1306) merged with `getPageBuffer`
(lines 1332-1359): a cached (or on-file) `Empty` block is promoted to a
fresh block of the expected type; a present block must match the expected
type; an absent block is a sanity error at or beyond `memoryPageCount`, a
`Range exceeded.` error when it must exist, and is freshly created
otherwise. -/
def getBlockAs (s : St) (a : Nat) (k : Kind) (mustExist : Bool) : Except Err (Blk × St) :=
  match lookupBlk s a with
  | some .empty =>
    let b := freshBlk s k
    .ok (b, setBlk s a b)
  | some b => if kindMatches k b then .ok (b, s) else .error .typeMismatch
  | none =>
    if s.memoryPageCount ≤ a then .error .addrSanity
    else if mustExist then .error .rangeExceeded
    else
      let b := freshBlk s k
      .ok (b, setBlk s a b)

/-- Destructure an emptylist block (prev, next, entries). -/
def asElist : Blk → Except Err (Nat × Nat × List Nat)
  | .elist p n es => .ok (p, n, es)
  | _ => .error .typeMismatch

/-- Destructure a data block (prev, next, content). -/
def asData : Blk → Except Err (Nat × Nat × List Nat)
  | .data p n c => .ok (p, n, c)
  | _ => .error .typeMismatch

/-- `emptyPageBlock` (part_005 lines 1173-1179): close the block and
replace it in the cache with a fresh `EmptyPageBlock` at the same
address. -/
def emptyPageBlock (s : St) (a : Nat) : St :=
  setBlk s a .empty

/-- Tail walk of `getLastEmptylistPage` (part_005 lines 1120-1133): follow
`nextPage` from the given address until it is 0; returns the tail node's
address and fields.  Loading each node goes through `getBlockAs` (which can
promote an `Empty` block), so the store is threaded through. -/
def elistTail : Nat → St → Nat → Except Err ((Nat × Nat × Nat × List Nat) × St)
  | 0, _, _ => .error .fuelOut
  | fuel + 1, s, a => do
    let (b, s1) ← getBlockAs s a .elistK true
    let (p, n, es) ← asElist b
    if n = 0 then .ok ((a, p, n, es), s1) else elistTail fuel s1 n

/-- `getLastEmptylistPage` (part_005 lines 1120-1133): `none` iff
`root.emptylistAddr` is 0. -/
def getLastEmptylistPage (fuel : Nat) (s : St) :
    Except Err (Option (Nat × Nat × Nat × List Nat) × St) :=
  if s.emptylistAddr = 0 then .ok (none, s)
  else do
    let (t, s1) ← elistTail fuel s s.emptylistAddr
    .ok (some t, s1)

/-- `getEmptyPageAddr` (part_005 lines 1135-1161, the newest revision of
`PagedFile`).  No free-list: hand out `memoryPageCount` and increment it.
Empty tail node: clear the tail block, then either reset
`root.emptylistAddr` (tail was the first node) or update the surviving
previous node - the source executes `prevPage.prevPage = 0` there (line
1157) - and return the tail's own address.  Otherwise pop the tail's last
slot (`pop` decrements `count` and reads the slot; a stored 0 is an
error). -/
def getEmptyPageAddr (fuel : Nat) (s : St) : Except Err (Nat × St) := do
  let (t, s1) ← getLastEmptylistPage fuel s
  match t with
  | none =>
    let a := s1.memoryPageCount
    .ok (a, { s1 with memoryPageCount := a + 1 })
  | some (ta, tprev, tnext, tentries) =>
    if tentries.length = 0 then
      let s2 := emptyPageBlock s1 ta
      if tprev = 0 then
        .ok (ta, { s2 with emptylistAddr := 0 })
      else do
        let (pb, s3) ← getBlockAs s2 tprev .elistK true
        let (_pp, pn, pes) ← asElist pb
        .ok (ta, setBlk s3 tprev (.elist 0 pn pes))
    else
      match tentries.getLast? with
      | none => .error .popEmpty
      | some v =>
        if v = 0 then .error .zeroInFreelist
        else .ok (v, setBlk s1 ta (.elist tprev tnext tentries.dropLast))

/-- `addAddrToEmptylist` (part_005 lines 1181-1197): no chain - create a
free-list page at the freed address and point `root.emptylistAddr` at it;
full tail - create a free-list page at the freed address and link it as the
tail's `nextPage`; otherwise push the address into the tail's slots. -/
def addAddrToEmptylist (fuel : Nat) (s : St) (addr : Nat) : Except Err St := do
  let (t, s1) ← getLastEmptylistPage fuel s
  match t with
  | none => do
    let (_b, s2) ← getBlockAs s1 addr .elistK false
    .ok { s2 with emptylistAddr := addr }
  | some (ta, tprev, tnext, tentries) =>
    if tentries.length = s.elCapacity then do
      let (_b, s2) ← getBlockAs s1 addr .elistK false
      .ok (setBlk s2 ta (.elist tprev addr tentries))
    else if tentries.length < s.elCapacity then
      .ok (setBlk s1 ta (.elist tprev tnext (tentries ++ [addr])))
    else .error .fullPush

/-- `deleteDataPageBlock` (part_005 lines 1163-1171): walk the data chain
from `addr`, clearing each block in the cache and giving its address back
to the free-list, then continue with the saved `nextPage`. -/
def deleteDataPageBlock : Nat → St → Nat → Except Err St
  | 0, _, _ => .error .fuelOut
  | fuel + 1, s, a =>
    if a = 0 then .ok s
    else do
      let (b, s1) ← getBlockAs s a .dataK true
      let (_dp, dn, _dc) ← asData b
      let s2 := emptyPageBlock s1 a
      let s3 ← addAddrToEmptylist fuel s2 a
      deleteDataPageBlock fuel s3 dn

/-- Page info carried by the `Page` content facade walker (Page.ts line
625): after the first step it is the head page of the handle, afterwards a
data page of its overflow chain. -/
inductive PInfo where
  | headP (addr : Nat)
  | dataP (addr : Nat)
  deriving DecidableEq, Repr

/-- Address carried by a `PInfo`. -/
def pinfoAddr : PInfo → Nat
  | .headP a => a
  | .dataP a => a

/-- Content bytes of the page designated by a `PInfo` (the page's
`contentFacade`). -/
def pinfoContent (s : St) (p : PInfo) : Except Err (List Nat) :=
  match p with
  | .headP a => do
    let (b, _) ← getBlockAs s a (.entryK none) true
    match b with
    | .entry _ _ _ c => .ok c
    | _ => .error .typeMismatch
  | .dataP a => do
    let (b, _) ← getBlockAs s a .dataK true
    match b with
    | .data _ _ c => .ok c
    | _ => .error .typeMismatch

/-- Overwrite the content bytes of the page designated by a `PInfo`,
keeping its header fields. -/
def pinfoSetContent (s : St) (p : PInfo) (c : List Nat) : St :=
  match p with
  | .headP a =>
    match lookupBlk s a with
    | some (.entry t pp pn _) => setBlk s a (.entry t pp pn c)
    | _ => s
  | .dataP a =>
    match lookupBlk s a with
    | some (.data pp pn _) => setBlk s a (.data pp pn c)
    | _ => s

/-- Read the `nextPage` header field of the page designated by a `PInfo`. -/
def pinfoNext (s : St) (p : PInfo) : Except Err Nat :=
  match p with
  | .headP a =>
    match lookupBlk s a with
    | some (.entry _ _ pn _) => .ok pn
    | _ => .error .typeMismatch
  | .dataP a =>
    match lookupBlk s a with
    | some (.data _ pn _) => .ok pn
    | _ => .error .typeMismatch

/-- Write the `nextPage` header field of the page designated by a
`PInfo`. -/
def pinfoSetNext (s : St) (p : PInfo) (n : Nat) : St :=
  match p with
  | .headP a =>
    match lookupBlk s a with
    | some (.entry t pp _ c) => setBlk s a (.entry t pp n c)
    | _ => s
  | .dataP a =>
    match lookupBlk s a with
    | some (.data pp _ c) => setBlk s a (.data pp n c)
    | _ => s

/-- The `getNextPage` callback installed by `Page` on its content facade
(Page.ts lines 650-671) for a handle whose head is the entry page at `ha`.
`none` as previous info loads the head page.  Otherwise follow the
previous page's `nextPage`: nonzero loads the existing data page; zero in
write mode allocates a fresh address, creates the data page there, and
links the previous page's `nextPage` to it - the fresh page's `prevPage`
field is left as created (0); zero in read mode signals the end of the
chain. -/
def getNextPage (fuel : Nat) (s : St) (prev : Option PInfo) (ha : Nat) (write : Bool) :
    Except Err (Option PInfo × St) :=
  match prev with
  | none => do
    let (_b, s1) ← getBlockAs s ha (.entryK none) true
    .ok (some (.headP ha), s1)
  | some pi => do
    let n ← pinfoNext s pi
    if n ≠ 0 then do
      let (_b, s1) ← getBlockAs s n .dataK true
      .ok (some (.dataP n), s1)
    else if write then do
      let (na, s1) ← getEmptyPageAddr fuel s
      let (_b, s2) ← getBlockAs s1 na .dataK false
      let s3 := pinfoSetNext s2 pi na
      .ok (some (.dataP na), s3)
    else .ok (none, s)

/-- `PagedBufferFacade.writeInternal` (BufferFacade.ts lines 481-516) run
over the store through the `Page` callbacks, in write mode.  Returns the
updated store and the page info of the last node processed (the value of
`pageInfo` when the loop breaks, which `writeAndCleanup` hands to the
`deleteNextPage` callback). -/
def storeWriteLoop (afuel : Nat) (ha : Nat) :
    Nat → St → Option PInfo → Nat → List Nat → Except Err (St × PInfo)
  | 0, _, _, _, _ => .error .fuelOut
  | fuel + 1, s, cur, skip, rest => do
    let (pg, s1) ← getNextPage afuel s cur ha true
    match pg with
    | none => .error .outOfRangeWrite
    | some pi => do
      let c ← pinfoContent s1 pi
      if c.length ≤ skip then
        storeWriteLoop afuel ha fuel s1 (some pi) (skip - c.length) rest
      else
        let ws := min (c.length - skip) rest.length
        let c2 := c.take skip ++ rest.take ws ++ c.drop (skip + ws)
        let s2 := pinfoSetContent s1 pi c2
        if rest.length - ws = 0 then .ok (s2, pi)
        else storeWriteLoop afuel ha fuel s2 (some pi) 0 (rest.drop ws)

/-- `Page.writeAndCleanup` (Page.ts lines 737-744):
`writeInternal(content, offset, cleanup := true)`, whose final step runs
the `deleteNextPage` callback (Page.ts lines 672-679) on the last node
processed.  That callback calls `deleteInternalDataPage(prevPage.nextPage)`
and nothing else: the last node's `nextPage` field is not modified. -/
def writeAndCleanup (fuel : Nat) (ha : Nat) (s : St) (content : List Nat) (offset : Nat) :
    Except Err St := do
  let (s1, lastPi) ← storeWriteLoop fuel ha fuel s none offset content
  let n ← pinfoNext s1 lastPi
  deleteDataPageBlock fuel s1 n

/-- `Page.write` (Page.ts lines 727-734): `writeInternal` with
`cleanup := false` (no `deleteNextPage` call). -/
def pageWrite (fuel : Nat) (ha : Nat) (s : St) (content : List Nat) (offset : Nat) :
    Except Err St := do
  let (s1, _) ← storeWriteLoop fuel ha fuel s none offset content
  .ok s1

/-- `PagedFile.writeToDataPage` (src/PagedFile.ts lines 199-222, the
revision that maintains back-links): resolve the target address (allocate
when 0), load-or-create the data page there, set its `prevAddr` to the
caller's address; if the remaining content fits, write it, free the chain
hanging off the page's `nextAddr` and zero `nextAddr`; otherwise fill the
page, recurse on `nextAddr` with this page as predecessor, and link the
returned address. -/
def writeToDataPage : Nat → St → Nat → Nat → List Nat → Except Err (Nat × St)
  | 0, _, _, _, _ => .error .fuelOut
  | fuel + 1, s, pageAddr, prevAddr, content => do
    let (resolved, s1) ←
      if pageAddr = 0 then getEmptyPageAddr fuel s else .ok (pageAddr, s)
    let (b, s2) ← getBlockAs s1 resolved .dataK false
    let (_dp, dn, dc) ← asData b
    if content.length ≤ dc.length then
      let c2 := content ++ dc.drop content.length
      let s3 := setBlk s2 resolved (.data prevAddr dn c2)
      let s4 ← deleteDataPageBlock fuel s3 dn
      .ok (resolved, setBlk s4 resolved (.data prevAddr 0 c2))
    else
      let c2 := content.take dc.length
      let s3 := setBlk s2 resolved (.data prevAddr dn c2)
      let (na, s4) ← writeToDataPage fuel s3 dn resolved (content.drop dc.length)
      .ok (resolved, setBlk s4 resolved (.data prevAddr na c2))

end Store

namespace OldRev

open Store

/-- `getEmptyPageAddr` from the `src/PagedFile.ts` revision (lines
252-275): identical to `Store.getEmptyPageAddr` except for the surviving
previous node on the empty-tail path, where this revision executes
`prevPage.nextAddr = 0` (line 271) instead of zeroing `prevAddr`. -/
def getEmptyPageAddr (fuel : Nat) (s : St) : Except Err (Nat × St) := do
  let (t, s1) ← getLastEmptylistPage fuel s
  match t with
  | none =>
    let a := s1.memoryPageCount
    .ok (a, { s1 with memoryPageCount := a + 1 })
  | some (ta, tprev, tnext, tentries) =>
    if tentries.length = 0 then
      let s2 := emptyPageBlock s1 ta
      if tprev = 0 then
        .ok (ta, { s2 with emptylistAddr := 0 })
      else do
        let (pb, s3) ← getBlockAs s2 tprev .elistK true
        let (pp, _pn, pes) ← asElist pb
        .ok (ta, setBlk s3 tprev (.elist pp 0 pes))
    else
      match tentries.getLast? with
      | none => .error .popEmpty
      | some v =>
        if v = 0 then .error .zeroInFreelist
        else .ok (v, setBlk s1 ta (.elist tprev tnext tentries.dropLast))

end OldRev

namespace SaveM

/-- A cached page block as seen by `save` and `checkBlockCache`: its
address, its full raw page buffer (`pageSize` bytes, type byte included),
its dirty flag and its closed flag. -/
structure SBlock where
  addr : Nat
  bytes : List Nat
  dirty : Bool
  closed : Bool
  deriving DecidableEq, Repr

/-- File-backed store state for `save`: the on-disk byte image (a byte
list; reading past the end yields 0, matching a sparse extension), the
block cache in least-recently-used order (oldest first), and
`filePageCount`. -/
structure SaveSt where
  file : List Nat
  cache : List SBlock
  filePageCount : Nat
  deriving DecidableEq, Repr

/-- Extend a byte image with zeros up to length `n` (seeking past the end
of a file and writing there reads back as zeros in between). -/
def padTo (f : List Nat) (n : Nat) : List Nat :=
  f ++ List.replicate (n - f.length) 0

/-- Overwrite `bs.length` bytes of the image at byte offset `off`. -/
def writeBytesAt (f : List Nat) (off : Nat) (bs : List Nat) : List Nat :=
  let g := padTo f (off + bs.length)
  g.take off ++ bs ++ g.drop (off + bs.length)

/-- `PageBlock.writeTo` (PageBlock.ts lines 70-89): error on a closed
block; return immediately when the block is clean; otherwise seek to
`addr * pageSize`, write the full page buffer (the write loop transfers
exactly `pageSize` bytes), and mark the block clean. -/
def writeTo (pageSize : Nat) (f : List Nat) (b : SBlock) : Except Err (List Nat × SBlock) :=
  if b.closed then .error .closedPage
  else if b.dirty = false then .ok (f, b)
  else .ok (writeBytesAt f (b.addr * pageSize) b.bytes, { b with dirty := false })

/-- The body of the `traverseFromOldest` callback in `save` (part_005
lines 946-951), folded over the cache from oldest to newest: raise
`filePageCount` to `addr + 1` when the block's address reaches it, then
`writeTo`.  Returns the written file image, the updated cache (same
order), and the final `filePageCount`. -/
def saveLoop (pageSize : Nat) :
    List SBlock → List Nat → Nat → Except Err (List Nat × List SBlock × Nat)
  | [], f, fpc => .ok (f, [], fpc)
  | b :: tl, f, fpc => do
    let fpc1 := if fpc ≤ b.addr then b.addr + 1 else fpc
    let (f1, b1) ← writeTo pageSize f b
    let (f2, tl2, fpc2) ← saveLoop pageSize tl f1 fpc1
    .ok (f2, b1 :: tl2, fpc2)

/-- `checkBlockCache` (part_005 lines 1093-1109): with `n` blocks still to
evict, walk the cache from oldest to newest; dirty blocks are kept; a
clean block is closed and deleted, and the walk stops once the eviction
count is used up.  (`checkBlockCache` only invokes this with `n ≥ 1`.) -/
def evictClean : Nat → List SBlock → List SBlock
  | _, [] => []
  | n, b :: tl =>
    if b.dirty then b :: evictClean n tl
    else if n ≤ 1 then tl
    else evictClean (n - 1) tl

/-- `checkBlockCache` entry (part_005 lines 1093-1109): nothing to do at
or below `cacheSize`, otherwise evict `size - cacheSize` clean blocks,
oldest first. -/
def checkBlockCache (cacheSize : Nat) (cache : List SBlock) : List SBlock :=
  if cache.length ≤ cacheSize then cache
  else evictClean (cache.length - cacheSize) cache

/-- `PagedFile.save` (part_005 lines 938-953), after its closed-file and
memory-file guards: traverse the block cache from oldest to newest
(`saveLoop`), then `checkCache` (whose block-cache part is
`checkBlockCache`). -/
def save (pageSize cacheSize : Nat) (st : SaveSt) : Except Err SaveSt := do
  let (f, cache1, fpc) ← saveLoop pageSize st.cache st.file st.filePageCount
  .ok { file := f, cache := checkBlockCache cacheSize cache1, filePageCount := fpc }

end SaveM

namespace CloseM

open Store

/-- State of a file-backed `PagedFile` as far as `close` and the
closed-file guards are concerned: the page store, whether the underlying
OS file handle is still open, and the `isClosed` flag. -/
structure FullSt where
  store : St
  fileOpen : Bool
  isClosed : Bool
  deriving DecidableEq, Repr

/-- Contract of the external file handle (`Deno.FsFile.close`): closing an
already-closed resource raises `BadResource`. -/
def fileClose (opened : Bool) : Except Err Bool :=
  if opened then .ok false else .error .badResource

/-- `PagedFile.close` (part_005 lines 955-960): unconditionally close the
underlying file handle (there is no `isClosed` guard), then set
`isClosed`. -/
def close (st : FullSt) : Except Err FullSt := do
  let o ← fileClose st.fileOpen
  .ok { st with fileOpen := o, isClosed := true }

/-- `createPageForManager` (part_005 lines 986-1001): closed-file guard,
then allocate an address and create the entry block there. -/
def createPageOp (fuel : Nat) (st : FullSt) (ty : Option Nat) : Except Err (Nat × FullSt) :=
  if st.isClosed then .error .closedFile
  else do
    let (a, s1) ← getEmptyPageAddr fuel st.store
    let (_b, s2) ← getBlockAs s1 a (.entryK ty) false
    .ok (a, { st with store := s2 })

/-- `getPageForManager` (part_005 lines 971-984): closed-file guard, then
load the entry block. -/
def getPageOp (st : FullSt) (addr : Nat) (ty : Option Nat) : Except Err (Blk × FullSt) :=
  if st.isClosed then .error .closedFile
  else do
    let (b, s1) ← getBlockAs st.store addr (.entryK ty) true
    .ok (b, { st with store := s1 })

/-- `deletePage` (part_005 lines 894-910) followed by `deletePageBlock`
(lines 1031-1036): closed-file guard; address 0 is a no-op; otherwise
clear the entry block, give its address back to the free-list, and free
its data chain. -/
def deletePageOp (fuel : Nat) (st : FullSt) (addr : Nat) (ty : Option Nat) :
    Except Err FullSt :=
  if st.isClosed then .error .closedFile
  else if addr = 0 then .ok st
  else do
    let (b, s1) ← getBlockAs st.store addr (.entryK ty) true
    match b with
    | .entry _ _ pn _ => do
      let s2 := emptyPageBlock s1 addr
      let s3 ← addAddrToEmptylist fuel s2 addr
      let s4 ← deleteDataPageBlock fuel s3 pn
      .ok { st with store := s4 }
    | _ => .error .typeMismatch

/-- `save` (part_005 lines 938-953): closed-file guard first (the body is
modelled in `SaveM.save`; only the guard matters here). -/
def saveOp (pageSize cacheSize : Nat) (st : FullSt) (sv : SaveM.SaveSt) :
    Except Err SaveM.SaveSt :=
  if st.isClosed then .error .closedFile
  else SaveM.save pageSize cacheSize sv

end CloseM

namespace AliasM

open Facade

/-- Result buffer of a facade access, tracking aliasing: `view` is a
`subarray` into the page buffer at the given chain index (mutations pass
through to the page), `copy` is a freshly allocated array (mutations do
not reach any page). -/
inductive BufRef where
  | view (pageIdx start len : Nat)
  | copy (bytes : List Nat)
  deriving DecidableEq, Repr

/-- Bytes observed through a buffer reference. -/
def resolve (pages : List PageBuf) (r : BufRef) : List Nat :=
  match r with
  | .view i st len => ((pages.getD i []).drop st).take len
  | .copy bs => bs

/-- Effect on the page chain of writing value `v` at index `j` of the
returned buffer: writing through a view mutates the underlying page,
writing into a fresh copy leaves every page untouched. -/
def mutateRet (pages : List PageBuf) (r : BufRef) (j v : Nat) : List PageBuf :=
  match r with
  | .view i st _ => pages.set i ((pages.getD i []).set (st + j) v)
  | .copy _ => pages

/-- `PagedBufferFacade[UNSAFE_ACCESS]` (BufferFacade.ts lines 344-382) at
the aliasing level: the result is `new Uint8Array(resultLength)` filled by
`result.set(chunk)`, i.e. a fresh array holding a copy of the assembled
bytes (the chunks themselves are views into page buffers, but `set`
copies them out). -/
def pagedUnsafeAccess (fuel : Nat) (pages : List PageBuf) (start : Nat) (len : Option Nat) :
    Except Err BufRef :=
  match len with
  | some l => (readRange fuel pages start l).map .copy
  | none => (readAll fuel pages start).map .copy

/-- `.slice()` on a typed array: always a fresh copy of the observed
bytes. -/
def sliceRef (pages : List PageBuf) (r : BufRef) : BufRef :=
  .copy (resolve pages r)

/-- `Page.read` (Page.ts lines 709-716) via `PagedBufferFacade.read`
(lines 384-386): `this[UNSAFE_ACCESS](start, length).slice()`. -/
def pageRead (fuel : Nat) (pages : List PageBuf) (start : Nat) (len : Option Nat) :
    Except Err BufRef := do
  let r ← pagedUnsafeAccess fuel pages start len
  .ok (sliceRef pages r)

end AliasM

namespace Ex

open Store SaveM CloseM

/-- Store whose free-list chain is root -> 1 -> 2 -> 3 with an empty tail
node 3 (`prev = 2`); nodes 1 and 2 each hold one stored address. -/
def c1store : St :=
  ⟨1, 0, [], [(1, .elist 0 2 [5]), (2, .elist 1 3 [6]), (3, .elist 2 0 [])], 10, 10, 3, 5⟩

/-- Store with an entry head page at address 1 (content capacity 5) whose
overflow chain is 1 -> 2 -> 3; the free-list is empty. -/
def c3store : St :=
  ⟨0, 0, [],
    [(1, .entry 4 0 2 [1, 2, 3, 4, 5]), (2, .data 1 3 [6, 6, 6, 6, 6]),
      (3, .data 2 0 [7, 7, 7, 7, 7])],
    4, 4, 3, 5⟩

/-- Store with an entry head page at address 1 (content capacity 2), no
overflow chain yet, empty free-list; data capacity 4. -/
def c4store : St :=
  ⟨0, 0, [], [(1, .entry 4 0 0 [0, 0])], 2, 2, 3, 4⟩

/-- Store used for the amended-C4 witness: empty block map, one page on
file, room for fresh pages. -/
def c4wstore : St :=
  ⟨0, 0, [], [], 1, 2, 3, 4⟩

/-- Store with an empty free-list, used for the C6 witness. -/
def c6store : St :=
  ⟨0, 0, [], [(1, .entry 4 0 0 [0, 0])], 2, 2, 3, 2⟩

/-- Open file-backed state over a small store. -/
def c9open : FullSt :=
  ⟨⟨0, 0, [], [(1, .entry 4 0 0 [0, 0])], 2, 2, 3, 2⟩, true, false⟩

/-- The same state after one `close()`. -/
def c9closed : FullSt :=
  ⟨⟨0, 0, [], [(1, .entry 4 0 0 [0, 0])], 2, 2, 3, 2⟩, false, true⟩

/-- A byte-level save state (for the post-close `save` call). -/
def c9save : SaveSt :=
  ⟨[], [], 0⟩

/-- Byte-level save state for the C8 witness: one dirty block at address 1
(page size 4), one clean block at address 0. -/
def c8save : SaveSt :=
  ⟨[1, 1, 1, 1], [⟨0, [1, 1, 1, 1], false, false⟩, ⟨1, [3, 2, 2, 2], true, false⟩], 1⟩

end Ex

namespace Facade

theorem readRange_ok : ∀ (pages : List PageBuf) (start len fuel : Nat),
    pages.length < fuel →
    start + len ≤ pages.flatten.length →
    (0 < len ∨ start < pages.flatten.length) →
    readRange fuel pages start len = .ok ((pages.flatten.drop start).take len)
  | [], start, len, fuel, _hf, hle, hpos => by
    simp only [List.flatten_nil, List.length_nil] at hle hpos
    omega
  | p :: tl, start, len, fuel, hf, hle, hpos => by
    match fuel, hf with
    | fuel + 1, hf =>
      have hlen : (p :: tl).flatten.length = p.length + tl.flatten.length := by
        simp [List.flatten_cons]
      by_cases hsk : p.length ≤ start
      · have hd : (p :: tl).flatten.drop start = tl.flatten.drop (start - p.length) := by
          simp [List.flatten_cons, List.drop_append_eq_append_drop,
            List.drop_eq_nil_of_le hsk]
        rw [readRange, if_pos hsk, hd]
        exact readRange_ok tl (start - p.length) len fuel (by simpa using hf)
          (by omega) (by omega)
      · rw [readRange, if_neg hsk]
        have hstart : start < p.length := by omega
        have hds : ((p :: tl).flatten.drop start).take len
            = ((p.drop start) ++ tl.flatten).take len := by
          simp [List.flatten_cons, List.drop_append_eq_append_drop,
            Nat.sub_eq_zero_of_le (le_of_lt hstart)]
        by_cases hbr : len - min (p.length - start) len = 0
        · have hlle : len ≤ p.length - start := by omega
          have hmin : min (p.length - start) len = len := by omega
          rw [hmin] at hbr ⊢
          simp only [hbr, if_pos rfl]
          rw [hds, List.take_append_eq_append_take]
          have hz : len - (p.drop start).length = 0 := by
            simp only [List.length_drop]
            omega
          rw [hz]
          simp
        · have hmin : min (p.length - start) len = p.length - start := by omega
          rw [hmin] at hbr ⊢
          simp only [if_neg hbr]
          have hchunk : ((p.drop start).take (p.length - start)) = p.drop start := by
            apply List.take_of_length_le
            simp [List.length_drop]
          have hrec : readRange fuel tl 0 (len - (p.length - start))
              = .ok ((tl.flatten.drop 0).take (len - (p.length - start))) :=
            readRange_ok tl 0 (len - (p.length - start)) fuel (by simpa using hf)
              (by omega) (by omega)
          rw [hrec]
          simp only [List.drop_zero]
          rw [hchunk, hds, List.take_append_eq_append_take]
          have h1 : (p.drop start).take len = p.drop start := by
            apply List.take_of_length_le
            simp only [List.length_drop]
            omega
          have h2 : len - (p.drop start).length = len - (p.length - start) := by
            simp only [List.length_drop]
          rw [h1, h2]
          rfl

theorem readRange_err : ∀ (pages : List PageBuf) (start len fuel : Nat),
    pages.length < fuel →
    (pages.flatten.length < start + len ∨ (len = 0 ∧ pages.flatten.length ≤ start)) →
    readRange fuel pages start len = .error .outOfRange
  | [], start, len, fuel, hf, _hbad => by
    match fuel, hf with
    | fuel + 1, _ => rw [readRange]
  | p :: tl, start, len, fuel, hf, hbad => by
    match fuel, hf with
    | fuel + 1, hf =>
      have hlen : (p :: tl).flatten.length = p.length + tl.flatten.length := by
        simp [List.flatten_cons]
      by_cases hsk : p.length ≤ start
      · rw [readRange, if_pos hsk]
        exact readRange_err tl (start - p.length) len fuel (by simpa using hf)
          (by omega)
      · rw [readRange, if_neg hsk]
        have hstart : start < p.length := by omega
        have hbr : ¬ (len - min (p.length - start) len = 0) := by omega
        rw [if_neg hbr]
        have hmin : min (p.length - start) len = p.length - start := by omega
        have hrec : readRange fuel tl 0 (len - min (p.length - start) len)
            = .error .outOfRange :=
          readRange_err tl 0 (len - min (p.length - start) len) fuel
            (by simpa using hf) (by omega)
        rw [hrec]
        rfl

theorem readAll_flatten : ∀ (pages : List PageBuf) (fuel : Nat),
    pages.length < fuel →
    readAll fuel pages 0 = .ok pages.flatten
  | [], fuel, hf => by
    match fuel, hf with
    | fuel + 1, _ => rw [readAll]; rfl
  | p :: tl, fuel, hf => by
    match fuel, hf with
    | fuel + 1, hf =>
      by_cases hz : p.length ≤ 0
      · have hp : p = [] := List.eq_nil_of_length_eq_zero (by omega)
        rw [readAll, if_pos hz]
        subst hp
        simpa using readAll_flatten tl fuel (by simpa using hf)
      · rw [readAll, if_neg hz, readAll_flatten tl fuel (by simpa using hf)]
        rfl

theorem writeLoop_nil_eq (dcap fuel skip : Nat) (rest : List Nat) :
    writeLoop dcap (fuel + 1) [] skip rest =
      writeLoop dcap (fuel + 1) [List.replicate dcap 0] skip rest := rfl

theorem writeLoop_prefix (dcap : Nat) (hd : 1 ≤ dcap) :
    ∀ (fuel : Nat) (p : PageBuf) (tl pages2 : List PageBuf) (rest : List Nat),
    p ≠ [] →
    (∀ q ∈ tl, q ≠ []) →
    writeLoop dcap fuel (p :: tl) 0 rest = some pages2 →
    (pages2.flatten.take rest.length = rest ∧ rest.length ≤ pages2.flatten.length ∧
      (∀ q ∈ pages2, q ≠ []) ∧ pages2 ≠ [])
  | 0, _, _, _, _, _, _, hw => by exact absurd hw (by rw [writeLoop]; simp)
  | fuel + 1, p, tl, pages2, rest, hpne, htlne, hw => by
    rw [writeLoop] at hw
    have hplen : 0 < p.length := List.length_pos.mpr hpne
    have hsk : ¬ p.length ≤ 0 := by omega
    rw [if_neg hsk] at hw
    simp only [Nat.sub_zero, List.take_zero, List.nil_append, Nat.zero_add] at hw
    by_cases hbr : rest.length - min p.length rest.length = 0
    · rw [if_pos hbr] at hw
      have hrle : rest.length ≤ p.length := by omega
      have hmin : min p.length rest.length = rest.length := by omega
      rw [hmin] at hw
      have htake : rest.take rest.length = rest := by simp
      rw [htake] at hw
      obtain rfl : (rest ++ p.drop rest.length) :: tl = pages2 := Option.some_inj.mp hw
      refine ⟨?_, ?_, ?_, by simp⟩
      · rw [List.flatten_cons, List.append_assoc, List.take_append_eq_append_take]
        simp
      · simp only [List.flatten_cons, List.length_append]
        omega
      · intro q hq
        rcases List.mem_cons.mp hq with rfl | hq
        · simp only [← List.length_pos, List.length_append, List.length_drop]
          omega
        · exact htlne q hq
    · rw [if_neg hbr] at hw
      have hrgt : p.length < rest.length := by omega
      have hmin : min p.length rest.length = p.length := by omega
      rw [hmin] at hw
      have hdrop : p.drop p.length = [] := by simp
      rw [hdrop, List.append_nil] at hw
      have hstep : ∀ tl2, writeLoop dcap fuel tl 0 (rest.drop p.length) = some tl2 →
          ((tl2.flatten.take (rest.drop p.length).length = rest.drop p.length ∧
            (rest.drop p.length).length ≤ tl2.flatten.length ∧
            (∀ q ∈ tl2, q ≠ []) ∧ tl2 ≠ [])) := by
        intro tl2 h2
        match tl, h2 with
        | [], h2 =>
          match fuel, h2 with
          | 0, h2 => exact absurd h2 (by rw [writeLoop]; simp)
          | fuel + 1, h2 =>
            rw [writeLoop_nil_eq] at h2
            exact writeLoop_prefix dcap hd (fuel + 1) (List.replicate dcap 0) [] tl2 _
              (List.ne_nil_of_length_pos (by simpa using hd)) (by simp) h2
        | q :: t, h2 =>
          exact writeLoop_prefix dcap hd fuel q t tl2 _
            (htlne q (by simp)) (fun x hx => htlne x (by simp [hx])) h2
      cases hrec : writeLoop dcap fuel tl 0 (rest.drop p.length) with
      | none => rw [hrec] at hw; exact absurd hw (by simp)
      | some tl2 =>
        rw [hrec] at hw
        simp only [Option.some_inj] at hw
        obtain ⟨hpre, hlen, hne, _hne2⟩ := hstep tl2 hrec
        subst hw
        have hlentake : (rest.take p.length).length = p.length := by
          simp only [List.length_take]
          omega
        refine ⟨?_, ?_, ?_, by simp⟩
        · rw [List.flatten_cons, List.take_append_eq_append_take, hlentake]
          have h1 : (rest.take p.length).take rest.length = rest.take p.length := by
            apply List.take_of_length_le
            omega
          rw [h1]
          have h2 : rest.length - p.length = (rest.drop p.length).length := by
            simp
          rw [h2, hpre]
          simp
        · simp only [List.flatten_cons, List.length_append, hlentake]
          simp only [List.length_drop] at hlen
          omega
        · intro q hq
          rcases List.mem_cons.mp hq with rfl | hq
          · simp only [← List.length_pos, hlentake]
            omega
          · exact hne q hq

end Facade

theorem okBind {α β : Type} (a : α) (g : α → Except Err β) :
    (Except.ok a >>= g) = g a := rfl

theorem errorBind {α β : Type} (e : Err) (g : α → Except Err β) :
    ((Except.error e : Except Err α) >>= g) = .error e := rfl

namespace SaveM

/-- Number of clean blocks in a cache list. -/
def countClean (l : List SBlock) : Nat :=
  l.countP (fun b => b.dirty = false)

theorem evictClean_sublist : ∀ (n : Nat) (l : List SBlock), (evictClean n l).Sublist l
  | _, [] => by rw [evictClean]
  | n, b :: tl => by
    rw [evictClean]
    by_cases hdd : b.dirty
    · simpa [hdd] using (evictClean_sublist n tl).cons₂ b
    · by_cases hn : n ≤ 1
      · simp only [if_neg hdd, if_pos hn]
        exact List.Sublist.cons b (List.Sublist.refl tl)
      · simpa [hdd, hn] using (evictClean_sublist (n - 1) tl).cons b

theorem evictClean_filter_dirty : ∀ (n : Nat) (l : List SBlock),
    (evictClean n l).filter (fun b => b.dirty) = l.filter (fun b => b.dirty)
  | _, [] => by rw [evictClean]
  | n, b :: tl => by
    rw [evictClean]
    by_cases hdd : b.dirty
    · simp [hdd, evictClean_filter_dirty n tl]
    · by_cases hn : n ≤ 1
      · simp [hdd, hn]
      · simp [hdd, hn, evictClean_filter_dirty (n - 1) tl]

theorem countClean_add_countDirty : ∀ (l : List SBlock),
    countClean l + l.countP (fun b => b.dirty) = l.length
  | [] => by simp [countClean]
  | b :: tl => by
    by_cases hdd : b.dirty <;>
      simp [countClean, List.countP_cons, hdd] at * <;>
      have := countClean_add_countDirty tl <;>
      simp [countClean] at this <;> omega

theorem evictClean_length : ∀ (n : Nat) (l : List SBlock), 1 ≤ n →
    (evictClean n l).length = l.length - min n (countClean l)
  | _, [], _ => by rw [evictClean]; simp
  | n, b :: tl, hn => by
    rw [evictClean]
    by_cases hdd : b.dirty
    · have ih := evictClean_length n tl hn
      have hc : countClean (b :: tl) = countClean tl := by
        simp [countClean, List.countP_cons, hdd]
      simp only [if_pos hdd, List.length_cons, ih, hc]
      have : min n (countClean tl) ≤ countClean tl := Nat.min_le_right _ _
      have h2 : countClean tl ≤ tl.length := List.countP_le_length _
      omega
    · have hc : countClean (b :: tl) = countClean tl + 1 := by
        simp [countClean, List.countP_cons, hdd]
      by_cases h1 : n ≤ 1
      · have : n = 1 := by omega
        subst this
        simp only [if_neg hdd, if_pos h1, hc, List.length_cons]
        omega
      · have ih := evictClean_length (n - 1) tl (by omega)
        have h2 : countClean tl ≤ tl.length := List.countP_le_length _
        simp only [if_neg hdd, if_neg h1, ih, hc, List.length_cons]
        omega

theorem padTo_length (f : List Nat) (n : Nat) : n ≤ (padTo f n).length := by
  simp only [padTo, List.length_append, List.length_replicate]
  omega

theorem padTo_getD (f : List Nat) (n i : Nat) : (padTo f n).getD i 0 = f.getD i 0 := by
  simp only [padTo, List.getD_eq_getElem?_getD, List.getElem?_append]
  split
  · rfl
  · rename_i hlt
    have hge : f.length ≤ i := by omega
    rw [List.getElem?_eq_none hge]
    by_cases h2 : i - f.length < n - f.length
    · rw [List.getElem?_replicate_of_lt h2]
      rfl
    · rw [List.getElem?_eq_none (by simp only [List.length_replicate]; omega)]

theorem writeBytesAt_getD_in (f bs : List Nat) (off i : Nat) (h : i < bs.length) :
    (writeBytesAt f off bs).getD (off + i) 0 = bs.getD i 0 := by
  unfold writeBytesAt
  have hg : off + bs.length ≤ (padTo f (off + bs.length)).length := padTo_length ..
  have hmin : off ⊓ (padTo f (off + bs.length)).length = off := by omega
  simp only [List.getD_eq_getElem?_getD, List.getElem?_append, List.length_append,
    List.length_take, hmin]
  rw [if_pos (by omega), if_neg (by omega)]
  have hidx : off + i - off = i := by omega
  rw [hidx]

theorem writeBytesAt_getD_out (f bs : List Nat) (off o : Nat)
    (h : o < off ∨ off + bs.length ≤ o) :
    (writeBytesAt f off bs).getD o 0 = f.getD o 0 := by
  unfold writeBytesAt
  have hg : off + bs.length ≤ (padTo f (off + bs.length)).length := padTo_length ..
  have hmin : off ⊓ (padTo f (off + bs.length)).length = off := by omega
  have hpad := padTo_getD f (off + bs.length) o
  simp only [List.getD_eq_getElem?_getD] at hpad ⊢
  simp only [List.getElem?_append, List.length_append, List.length_take, hmin]
  rcases h with h | h
  · rw [if_pos (by omega), if_pos h, List.getElem?_take_of_lt h]
    exact hpad
  · rw [if_neg (by omega), List.getElem?_drop]
    have hidx : off + bs.length + (o - (off + bs.length)) = o := by omega
    rw [hidx]
    exact hpad


theorem markClean_self (b : SBlock) (h : b.dirty = false) : { b with dirty := false } = b := by
  cases b
  simp_all

theorem pageRange_disjoint (ps a a2 i : Nat) (hps : 0 < ps) (hne : a ≠ a2) (hi : i < ps) :
    ¬(a2 * ps ≤ a * ps + i ∧ a * ps + i < a2 * ps + ps) := by
  rintro ⟨h1, h2⟩
  have hq : (a * ps + i) / ps = a := by
    rw [Nat.mul_comm a ps, Nat.mul_add_div hps, Nat.div_eq_of_lt hi]
    omega
  have h3 : a2 ≤ (a * ps + i) / ps := (Nat.le_div_iff_mul_le hps).mpr h1
  have h4 : (a * ps + i) / ps < a2 + 1 := by
    rw [Nat.div_lt_iff_lt_mul hps]
    calc a * ps + i < a2 * ps + ps := h2
    _ = (a2 + 1) * ps := by ring
  omega

theorem saveLoop_fpc_step (fpc a : Nat) :
    (if fpc ≤ a then a + 1 else fpc) = max fpc (a + 1) := by
  split <;> omega

theorem saveLoop_spec (ps : Nat) (hps : 0 < ps) : ∀ (cache : List SBlock) (f : List Nat) (fpc : Nat),
    (∀ b ∈ cache, b.bytes.length = ps) →
    (∀ b ∈ cache, b.closed = false) →
    (cache.map (fun b => b.addr)).Nodup →
    ∃ f2 fpc2,
      saveLoop ps cache f fpc = .ok (f2, cache.map (fun b => { b with dirty := false }), fpc2) ∧
      fpc2 = max fpc ((cache.map (fun b => b.addr + 1)).foldr max 0) ∧
      (∀ b ∈ cache, b.dirty = true → ∀ i, i < ps →
        f2.getD (b.addr * ps + i) 0 = b.bytes.getD i 0) ∧
      (∀ o : Nat, (∀ b ∈ cache, b.dirty = true → ¬(b.addr * ps ≤ o ∧ o < b.addr * ps + ps)) →
        f2.getD o 0 = f.getD o 0)
  | [], f, fpc, _, _, _ => by
    refine ⟨f, fpc, ?_, by simp, by simp, fun o _ => rfl⟩
    rw [saveLoop]
    rfl
  | b :: tl, f, fpc, hlen, hopen, hnd => by
    have hbl : b.bytes.length = ps := hlen b (by simp)
    have hbo : b.closed = false := hopen b (by simp)
    rw [List.map_cons, List.nodup_cons] at hnd
    have hndtl : (tl.map (fun b => b.addr)).Nodup := hnd.2
    have hbne : ∀ b2 ∈ tl, b2.addr ≠ b.addr := by
      intro b2 hb2 he
      exact hnd.1 (by rw [← he]; exact List.mem_map_of_mem _ hb2)
    have hwt : writeTo ps f b =
        .ok (if b.dirty then writeBytesAt f (b.addr * ps) b.bytes else f,
          { b with dirty := false }) := by
      rw [writeTo, if_neg (by simp [hbo])]
      by_cases hdd : b.dirty
      · rw [if_neg (by simp [hdd]), if_pos hdd]
      · have hdf : b.dirty = false := by simpa using hdd
        rw [if_pos hdf, if_neg hdd, markClean_self b hdf]
    obtain ⟨f2, fpc2, hrec, hmax, hcontent, hframe⟩ :=
      saveLoop_spec ps hps tl (if b.dirty then writeBytesAt f (b.addr * ps) b.bytes else f)
        (max fpc (b.addr + 1)) (fun q hq => hlen q (by simp [hq]))
        (fun q hq => hopen q (by simp [hq])) hndtl
    refine ⟨f2, fpc2, ?_, ?_, ?_, ?_⟩
    · rw [saveLoop, hwt, okBind, saveLoop_fpc_step]
      simp only [hrec, okBind, List.map_cons]
    · rw [hmax, List.map_cons, List.foldr_cons]
      omega
    · intro q hq hqd i hi
      rcases List.mem_cons.mp hq with rfl | hq
      · have hfr : f2.getD (q.addr * ps + i) 0 =
            (if q.dirty then writeBytesAt f (q.addr * ps) q.bytes else f).getD
              (q.addr * ps + i) 0 := by
          apply hframe
          intro b2 hb2 hb2d
          exact pageRange_disjoint ps q.addr b2.addr i hps
            (fun he => hbne b2 hb2 he.symm) hi
        rw [hfr, if_pos hqd]
        exact writeBytesAt_getD_in f q.bytes (q.addr * ps) i (by omega)
      · exact hcontent q hq hqd i hi
    · intro o ho
      have h1 : f2.getD o 0 =
          (if b.dirty then writeBytesAt f (b.addr * ps) b.bytes else f).getD o 0 := by
        apply hframe
        intro b2 hb2 hb2d
        exact ho b2 (by simp [hb2]) hb2d
      rw [h1]
      by_cases hdd : b.dirty
      · rw [if_pos hdd]
        have hob := ho b (by simp) hdd
        refine writeBytesAt_getD_out f b.bytes (b.addr * ps) o ?_
        rw [hbl]
        omega
      · rw [if_neg hdd]

end SaveM

namespace Store

theorem setBlk_counts (s : St) (a : Nat) (b : Blk) :
    (setBlk s a b).memoryPageCount = s.memoryPageCount ∧
    (setBlk s a b).filePageCount = s.filePageCount ∧
    (setBlk s a b).emptylistAddr = s.emptylistAddr := by
  simp [setBlk]

theorem getBlockAs_counts (s : St) (a : Nat) (k : Kind) (m : Bool) (b : Blk) (s1 : St)
    (h : getBlockAs s a k m = .ok (b, s1)) :
    s1.memoryPageCount = s.memoryPageCount ∧ s1.filePageCount = s.filePageCount ∧
    s1.emptylistAddr = s.emptylistAddr := by
  unfold getBlockAs at h
  split at h
  · simp only [Except.ok.injEq, Prod.mk.injEq] at h
    rw [← h.2]
    exact setBlk_counts s a _
  · split at h
    · simp only [Except.ok.injEq, Prod.mk.injEq] at h
      rw [← h.2]
      exact ⟨rfl, rfl, rfl⟩
    · exact absurd h (by simp)
  · split at h
    · exact absurd h (by simp)
    · split at h
      · exact absurd h (by simp)
      · simp only [Except.ok.injEq, Prod.mk.injEq] at h
        rw [← h.2]
        exact setBlk_counts s a _

theorem elistTail_counts : ∀ (fuel : Nat) (s : St) (a : Nat) (t : Nat × Nat × Nat × List Nat)
    (s1 : St), elistTail fuel s a = .ok (t, s1) →
    s1.memoryPageCount = s.memoryPageCount ∧ s1.filePageCount = s.filePageCount ∧
    s1.emptylistAddr = s.emptylistAddr
  | 0, _, _, _, _, h => by exact absurd h (by rw [elistTail]; simp)
  | fuel + 1, s, a, t, s1, h => by
    rw [elistTail] at h
    cases hg : getBlockAs s a Kind.elistK true with
    | error e => rw [hg, errorBind] at h; exact absurd h (by simp)
    | ok bs =>
      obtain ⟨b, sg⟩ := bs
      rw [hg, okBind] at h
      simp only [] at h
      obtain ⟨hg1, hg2, hg3⟩ := getBlockAs_counts s a Kind.elistK true b sg hg
      cases hb : asElist b with
      | error e => rw [hb, errorBind] at h; exact absurd h (by simp)
      | ok pne =>
        obtain ⟨p, n, es⟩ := pne
        rw [hb, okBind] at h
        simp only [] at h
        by_cases hn : n = 0
        · rw [if_pos hn] at h
          simp only [Except.ok.injEq, Prod.mk.injEq] at h
          rw [← h.2]
          exact ⟨hg1, hg2, hg3⟩
        · rw [if_neg hn] at h
          obtain ⟨h1, h2, h3⟩ := elistTail_counts fuel sg n t s1 h
          exact ⟨h1.trans hg1, h2.trans hg2, h3.trans hg3⟩

theorem getLastEmptylistPage_counts (fuel : Nat) (s : St)
    (t : Option (Nat × Nat × Nat × List Nat)) (s1 : St)
    (h : getLastEmptylistPage fuel s = .ok (t, s1)) :
    s1.memoryPageCount = s.memoryPageCount ∧ s1.filePageCount = s.filePageCount ∧
    s1.emptylistAddr = s.emptylistAddr := by
  unfold getLastEmptylistPage at h
  split at h
  · simp only [Except.ok.injEq, Prod.mk.injEq] at h
    rw [← h.2]
    exact ⟨rfl, rfl, rfl⟩
  · cases he : elistTail fuel s s.emptylistAddr with
    | error e => rw [he, errorBind] at h; exact absurd h (by simp)
    | ok ts =>
      obtain ⟨t0, s0⟩ := ts
      rw [he, okBind] at h
      simp only [] at h
      simp only [Except.ok.injEq, Prod.mk.injEq] at h
      rw [← h.2]
      exact elistTail_counts fuel s s.emptylistAddr t0 s0 he

theorem setBlkList_setBlkList : ∀ (l : List (Nat × Blk)) (a : Nat) (b1 b2 : Blk),
    setBlkList (setBlkList l a b1) a b2 = setBlkList l a b2
  | [], a, b1, b2 => by simp [setBlkList]
  | (k, v) :: tl, a, b1, b2 => by
    by_cases hk : k = a
    · simp [setBlkList, hk]
    · simp [setBlkList, hk, setBlkList_setBlkList tl a b1 b2]

theorem setBlk_setBlk (s : St) (a : Nat) (b1 b2 : Blk) :
    setBlk (setBlk s a b1) a b2 = setBlk s a b2 := by
  cases s
  simp [setBlk, setBlkList_setBlkList]

theorem lookupBlk_setBlkList_self : ∀ (l : List (Nat × Blk)) (a : Nat) (b : Blk),
    (setBlkList l a b).lookup a = some b
  | [], a, b => by simp [setBlkList]
  | (k, v) :: tl, a, b => by
    by_cases hk : k = a
    · simp [setBlkList, hk]
    · have hbe : (a == k) = false := beq_eq_false_iff_ne.mpr (fun he => hk he.symm)
      simp only [setBlkList, if_neg hk, List.lookup, hbe]
      exact lookupBlk_setBlkList_self tl a b

theorem lookupBlk_setBlkList_other : ∀ (l : List (Nat × Blk)) (a a2 : Nat) (b : Blk),
    a2 ≠ a → (setBlkList l a b).lookup a2 = l.lookup a2
  | [], a, a2, b, h => by
    have hbe : (a2 == a) = false := beq_eq_false_iff_ne.mpr h
    simp [setBlkList, List.lookup, hbe]
  | (k, v) :: tl, a, a2, b, h => by
    by_cases hk : k = a
    · subst hk
      have hbe : (a2 == k) = false := beq_eq_false_iff_ne.mpr h
      simp only [setBlkList, if_pos rfl, List.lookup, hbe]
    · simp only [setBlkList, if_neg hk, List.lookup]
      cases hbe : a2 == k with
      | true => rfl
      | false => exact lookupBlk_setBlkList_other tl a a2 b h

theorem lookupBlk_setBlk_self (s : St) (a : Nat) (b : Blk) :
    lookupBlk (setBlk s a b) a = some b :=
  lookupBlk_setBlkList_self s.blocks a b

theorem lookupBlk_setBlk_other (s : St) (a a2 : Nat) (b : Blk) (h : a2 ≠ a) :
    lookupBlk (setBlk s a b) a2 = lookupBlk s a2 :=
  lookupBlk_setBlkList_other s.blocks a a2 b h

theorem pinfoSetNext_lookup_other (s : St) (pi : PInfo) (n a2 : Nat)
    (h : a2 ≠ pinfoAddr pi) : lookupBlk (pinfoSetNext s pi n) a2 = lookupBlk s a2 := by
  cases pi with
  | headP a =>
    simp only [pinfoSetNext]
    split
    · exact lookupBlk_setBlk_other s a a2 _ (by simpa [pinfoAddr] using h)
    · rfl
  | dataP a =>
    simp only [pinfoSetNext]
    split
    · exact lookupBlk_setBlk_other s a a2 _ (by simpa [pinfoAddr] using h)
    · rfl

theorem saveLoop_fpc_le (ps M : Nat) : ∀ (cache : List SaveM.SBlock) (f f2 : List Nat)
    (fpc fpc2 : Nat) (c2 : List SaveM.SBlock),
    (∀ b ∈ cache, b.addr < M) → fpc ≤ M →
    SaveM.saveLoop ps cache f fpc = .ok (f2, c2, fpc2) → fpc2 ≤ M
  | [], f, f2, fpc, fpc2, c2, _, hle, h => by
    rw [SaveM.saveLoop] at h
    simp only [Except.ok.injEq, Prod.mk.injEq] at h
    omega
  | b :: tl, f, f2, fpc, fpc2, c2, ha, hle, h => by
    rw [SaveM.saveLoop] at h
    cases hw : SaveM.writeTo ps f b with
    | error e => rw [hw, errorBind] at h; exact absurd h (by simp)
    | ok fb =>
      obtain ⟨f1, b1⟩ := fb
      rw [hw, okBind] at h
      simp only [] at h
      cases hr : SaveM.saveLoop ps tl f1 (if fpc ≤ b.addr then b.addr + 1 else fpc) with
      | error e => rw [hr, errorBind] at h; exact absurd h (by simp)
      | ok r3 =>
        obtain ⟨f3, c3, fpc3⟩ := r3
        rw [hr, okBind] at h
        simp only [] at h
        simp only [Except.ok.injEq, Prod.mk.injEq] at h
        have hb : b.addr < M := ha b (by simp)
        have hstep : (if fpc ≤ b.addr then b.addr + 1 else fpc) ≤ M := by
          split <;> omega
        have := saveLoop_fpc_le ps M tl f1 f3
          (if fpc ≤ b.addr then b.addr + 1 else fpc) fpc3 c3
          (fun q hq => ha q (by simp [hq])) hstep hr
        omega

end Store

namespace Claims

open Facade Store SaveM CloseM AliasM Ex

/-- Claim C1 (refuting evaluation).  On the free-list chain 1 -> 2 -> 3
whose empty tail node 3 has `prev = 2`, the allocator of the newest
`PagedFile` revision returns the tail's address 3 and clears block 3 in
the cache, but on the surviving node 2 it zeroes the `prevAddr` field
(1 becomes 0) and leaves `nextAddr` equal to 3, still pointing at the
recycled page - the claim requires `nextAddr = 0` with `prevAddr`
unchanged.  The older `src/PagedFile.ts` revision of the same function,
evaluated on the same store, does exactly what the claim says. -/
theorem c1_tail_recycle_divergence :
    getEmptyPageAddr 10 c1store =
      .ok (3, { c1store with
        blocks := [(1, .elist 0 2 [5]), (2, .elist 0 3 [6]), (3, .empty)] }) ∧
    OldRev.getEmptyPageAddr 10 c1store =
      .ok (3, { c1store with
        blocks := [(1, .elist 0 2 [5]), (2, .elist 1 0 [6]), (3, .empty)] }) := by
  decide

/-- Claim C2 (counterexample).  A head page of content capacity 5 holding
zeros: `p.write([9,9,9])` stores the bytes in place, but `p.read()` with
no arguments walks the whole chain and returns all five content bytes
`[9,9,9,0,0]`, which is not equal to the written `[9,9,9]`.  (This is the
behaviour the repository's own `PagedBufferFacade` test asserts.) -/
theorem c2_read_returns_padding :
    writeLoop 5 10 [[0, 0, 0, 0, 0]] 0 [9, 9, 9] = some [[9, 9, 9, 0, 0]] ∧
    readAll 10 [[9, 9, 9, 0, 0]] 0 = .ok [9, 9, 9, 0, 0] ∧
    ([9, 9, 9, 0, 0] : List Nat) ≠ [9, 9, 9] := by
  decide

/-- Claim C2 (amended): after `p.write(bytes)` on a head page with a chain
of nonempty page buffers, `p.read(0, bytes.length)` returns exactly
`bytes`, and `p.read()` with no arguments returns the full chain content,
whose first `bytes.length` bytes equal `bytes` (the remainder is the
untouched tail of the chain, so plain `read()` equals `bytes` only when
`bytes` fills the chain exactly). -/
theorem c2_write_then_read_prefix (dcap fuel rfuel : Nat) (p : PageBuf)
    (tl pages2 : List PageBuf) (bytes : List Nat)
    (hd : 1 ≤ dcap) (hp : p ≠ []) (htl : ∀ q ∈ tl, q ≠ [])
    (hw : writeLoop dcap fuel (p :: tl) 0 bytes = some pages2)
    (hrf : pages2.length < rfuel) :
    readRange rfuel pages2 0 bytes.length = .ok bytes ∧
    readAll rfuel pages2 0 = .ok pages2.flatten ∧
    pages2.flatten.take bytes.length = bytes := by
  obtain ⟨hpre, hlen, hne, hne2⟩ := writeLoop_prefix dcap hd fuel p tl pages2 bytes hp htl hw
  refine ⟨?_, readAll_flatten pages2 rfuel hrf, hpre⟩
  have hflat : 0 < pages2.flatten.length := by
    match pages2, hne2 with
    | q :: t, _ =>
      have hq : q ≠ [] := hne q (by simp)
      have : 0 < q.length := List.length_pos.mpr hq
      simp only [List.flatten_cons, List.length_append]
      omega
  have hok := readRange_ok pages2 0 bytes.length rfuel hrf (by omega) (by omega)
  rw [hok, List.drop_zero, hpre]

/-- Witness for the amended C2 theorem: writing `[9,9,9]` into a chain of
one five-byte page, then reading back with explicit length yields
`[9,9,9]`, while the plain read yields the padded chain content. -/
theorem c2_write_then_read_prefix_witness :
    readRange 2 [[9, 9, 9, 0, 0]] 0 ([9, 9, 9] : List Nat).length = .ok [9, 9, 9] ∧
    readAll 2 [[9, 9, 9, 0, 0]] 0 = .ok ([[9, 9, 9, 0, 0]] : List PageBuf).flatten ∧
    ([[9, 9, 9, 0, 0]] : List PageBuf).flatten.take ([9, 9, 9] : List Nat).length = [9, 9, 9] :=
  c2_write_then_read_prefix 5 10 2 [0, 0, 0, 0, 0] [] [[9, 9, 9, 0, 0]] [9, 9, 9]
    (by decide) (by decide) (by simp) (by decide) (by decide)

/-- Claim C3 (refuting evaluation).  Writing `[9,9,9]` with
`writeAndCleanup` to the head page at address 1 (capacity 5, chain
1 -> 2 -> 3) ends on the head node and frees the whole remaining chain:
blocks 2 and 3 are cleared and given back to the free-list (2 becomes the
new free-list node holding 3).  But the head's `nextPage` field is left at
2 - the claim requires it to be set to 0.  The freed page 2 is thus still
reachable from the head chain. -/
theorem c3_cleanup_keeps_next_pointer :
    writeAndCleanup 10 1 c3store [9, 9, 9] 0 =
      .ok { c3store with
        emptylistAddr := 2,
        blocks := [(1, .entry 4 0 2 [9, 9, 9, 4, 5]), (2, .elist 0 0 [3]), (3, .empty)] } := by
  decide

/-- Claim C4 (counterexample).  Writing `[9,9,9]` through the `Page`
content facade to the head at address 1 (capacity 2) overflows and
allocates a fresh data page at address 2: the head's `nextPage` is linked
to 2, but the new data page is created with `prevAddr = 0`, not with the
linking node's address 1 as the claim requires. -/
theorem c4_new_data_page_has_zero_prev :
    pageWrite 10 1 c4store [9, 9, 9] 0 =
      .ok { c4store with
        memoryPageCount := 3,
        blocks := [(1, .entry 4 0 2 [9, 9]), (2, .data 0 0 [9, 0, 0, 0])] } := by
  decide

/-- Claim C5 (counterexample).  On a chain holding exactly one byte, the
zero-length read `p.read(1, 0)` requests bytes `1 .. 0` - all of which are
available, since `start + length = 1` does not exceed the chain length 1 -
yet the walker exhausts the chain while still skipping and fails with
`Out of range read` instead of returning the empty array of length 0. -/
theorem c5_zero_length_read_at_end_fails :
    readRange 10 [[7]] 1 0 = .error .outOfRange ∧
    1 + 0 ≤ ([[7]] : List PageBuf).flatten.length := by
  decide

/-- Claim C4 (amended): only the `PagedFile.writeToDataPage` engine
creates data pages with their `prevAddr` set to the caller's address
(shown here on a fresh allocation whose content fits in one page); the
`Page` content-facade write engine allocates fresh data pages with
`prevAddr = 0` and only links the forward pointer, so its chains are
singly linked. -/
theorem c4_writeToDataPage_sets_prev (s : St) (prevAddr fuel ha : Nat)
    (content : List Nat)
    (hfree : s.emptylistAddr = 0)
    (hfresh : lookupBlk s s.memoryPageCount = none)
    (hlen : content.length ≤ s.dcap)
    (hfuel : 2 ≤ fuel) :
    writeToDataPage fuel s 0 prevAddr content =
      .ok (s.memoryPageCount,
        setBlk { s with memoryPageCount := s.memoryPageCount + 1 } s.memoryPageCount
          (.data prevAddr 0 (content ++ (List.replicate s.dcap 0).drop content.length))) ∧
    (∀ pi : PInfo, pinfoNext s pi = .ok 0 → pinfoAddr pi ≠ s.memoryPageCount →
      getNextPage fuel s (some pi) ha true =
        .ok (some (.dataP s.memoryPageCount),
          pinfoSetNext
            (setBlk { s with memoryPageCount := s.memoryPageCount + 1 } s.memoryPageCount
              (.data 0 0 (List.replicate s.dcap 0)))
            pi s.memoryPageCount) ∧
      lookupBlk
        (pinfoSetNext
          (setBlk { s with memoryPageCount := s.memoryPageCount + 1 } s.memoryPageCount
            (.data 0 0 (List.replicate s.dcap 0)))
          pi s.memoryPageCount) s.memoryPageCount =
        some (.data 0 0 (List.replicate s.dcap 0))) := by
  obtain ⟨k, rfl⟩ : ∃ k, fuel = k + 2 := ⟨fuel - 2, by omega⟩
  have hgl : ∀ m, getLastEmptylistPage (m + 1) s = .ok (none, s) := by
    intro m
    unfold getLastEmptylistPage
    rw [if_pos hfree]
  have halloc : ∀ m, getEmptyPageAddr (m + 1) s =
      .ok (s.memoryPageCount, { s with memoryPageCount := s.memoryPageCount + 1 }) := by
    intro m
    unfold getEmptyPageAddr
    rw [hgl m, okBind]
  have hfresh1 : lookupBlk { s with memoryPageCount := s.memoryPageCount + 1 }
      s.memoryPageCount = none := hfresh
  have hget : getBlockAs { s with memoryPageCount := s.memoryPageCount + 1 }
      s.memoryPageCount Kind.dataK false =
      .ok (.data 0 0 (List.replicate s.dcap 0),
        setBlk { s with memoryPageCount := s.memoryPageCount + 1 } s.memoryPageCount
          (.data 0 0 (List.replicate s.dcap 0))) := by
    unfold getBlockAs
    rw [hfresh1]
    simp only []
    rw [if_neg (show ¬ (s.memoryPageCount + 1 ≤ s.memoryPageCount) by omega)]
    rfl
  constructor
  · rw [writeToDataPage]
    rw [if_pos (rfl : (0:Nat) = 0)]
    rw [halloc k, okBind]
    simp only []
    rw [hget, okBind]
    simp only []
    rw [asData, okBind]
    simp only [List.length_replicate]
    rw [if_pos hlen]
    rw [deleteDataPageBlock, if_pos rfl, okBind]
    rw [setBlk_setBlk, setBlk_setBlk]
  · intro pi hnext hne
    have hl2 : lookupBlk
        (pinfoSetNext
          (setBlk { s with memoryPageCount := s.memoryPageCount + 1 } s.memoryPageCount
            (.data 0 0 (List.replicate s.dcap 0)))
          pi s.memoryPageCount) s.memoryPageCount =
        some (.data 0 0 (List.replicate s.dcap 0)) := by
      rw [pinfoSetNext_lookup_other _ pi _ _ (fun he => hne he.symm),
        lookupBlk_setBlk_self]
    refine ⟨?_, hl2⟩
    unfold getNextPage
    simp only []
    rw [hnext, okBind]
    rw [if_neg (show ¬ ((0:Nat) ≠ 0) from fun h => h rfl), if_pos trivial]
    rw [halloc (k + 1), okBind]
    simp only []
    rw [hget, okBind]

/-- Witness for the amended C4 theorem: `writeToDataPage` on a fresh
allocation writes a data page whose `prevAddr` is the caller's address
7. -/
theorem c4_writeToDataPage_sets_prev_witness :
    writeToDataPage 2 c4store 0 7 [9, 9] =
      .ok (2, setBlk { c4store with memoryPageCount := 3 } 2
        (.data 7 0 [9, 9, 0, 0])) :=
  (c4_writeToDataPage_sets_prev c4store 7 2 1 [9, 9] (by decide) (by decide)
    (by decide) (by decide)).1

/-- Claim C6: when the free-list is empty (`root.emptylistAddr = 0`) the
allocator returns the current `memoryPageCount` and increments it by one,
touching nothing else; when the free-list is non-empty every successful
allocation returns an address taken from the free-list structure (either a
stored slot of the tail node or the tail node's own address) and leaves
`memoryPageCount` and `filePageCount` unchanged - so
`memoryPageCount ≥ filePageCount` is preserved by allocation; and `save`
preserves the invariant as well: it can only raise `filePageCount` to
`addr + 1` for cached addresses, all below `memoryPageCount`. -/
theorem c6_allocator_contract (s : St) (fuel : Nat)
    (hinv : s.filePageCount ≤ s.memoryPageCount) :
    (s.emptylistAddr = 0 →
      getEmptyPageAddr fuel s =
        .ok (s.memoryPageCount, { s with memoryPageCount := s.memoryPageCount + 1 }) ∧
      s.filePageCount ≤ s.memoryPageCount + 1) ∧
    (∀ r s2, s.emptylistAddr ≠ 0 → getEmptyPageAddr fuel s = .ok (r, s2) →
      s2.memoryPageCount = s.memoryPageCount ∧ s2.filePageCount = s.filePageCount ∧
      s2.filePageCount ≤ s2.memoryPageCount ∧
      ∃ ta tp tn tes s1,
        getLastEmptylistPage fuel s = .ok (some (ta, tp, tn, tes), s1) ∧
        (r = ta ∨ r ∈ tes)) ∧
    (∀ (ps cs M : Nat) (sv sv2 : SaveM.SaveSt),
      (∀ b ∈ sv.cache, b.addr < M) → sv.filePageCount ≤ M →
      SaveM.save ps cs sv = .ok sv2 → sv2.filePageCount ≤ M) := by
  refine ⟨?_, ?_, ?_⟩
  · intro h0
    have hgl : getLastEmptylistPage fuel s = .ok (none, s) := by
      unfold getLastEmptylistPage
      rw [if_pos h0]
    refine ⟨?_, by omega⟩
    unfold getEmptyPageAddr
    rw [hgl, okBind]
  · intro r s2 hne hok
    unfold getEmptyPageAddr at hok
    cases hgl : getLastEmptylistPage fuel s with
    | error e => rw [hgl, errorBind] at hok; exact absurd hok (by simp)
    | ok ts =>
      obtain ⟨t, s1⟩ := ts
      rw [hgl, okBind] at hok
      simp only [] at hok
      obtain ⟨hc1, hc2, _hc3⟩ := getLastEmptylistPage_counts fuel s t s1 hgl
      cases t with
      | none =>
        unfold getLastEmptylistPage at hgl
        rw [if_neg hne] at hgl
        cases he : elistTail fuel s s.emptylistAddr with
        | error e => rw [he, errorBind] at hgl; exact absurd hgl (by simp)
        | ok ts2 =>
          obtain ⟨t0, s0⟩ := ts2
          rw [he, okBind] at hgl
          simp only [] at hgl
          exact absurd hgl (by simp)
      | some tt =>
        obtain ⟨ta, tp, tn, tes⟩ := tt
        simp only [] at hok
        by_cases hemp : tes.length = 0
        · rw [if_pos hemp] at hok
          by_cases hp0 : tp = 0
          · rw [if_pos hp0] at hok
            simp only [Except.ok.injEq, Prod.mk.injEq] at hok
            obtain ⟨rfl, rfl⟩ := hok
            refine ⟨?_, ?_, ?_, ta, tp, tn, tes, s1, rfl, Or.inl rfl⟩ <;>
              simp [emptyPageBlock, setBlk, hc1, hc2] <;> omega
          · rw [if_neg hp0] at hok
            cases hgb : getBlockAs (emptyPageBlock s1 ta) tp Kind.elistK true with
            | error e => rw [hgb, errorBind] at hok; exact absurd hok (by simp)
            | ok bs =>
              obtain ⟨pb, s3⟩ := bs
              rw [hgb, okBind] at hok
              simp only [] at hok
              obtain ⟨hg1, hg2, _hg3⟩ :=
                getBlockAs_counts (emptyPageBlock s1 ta) tp Kind.elistK true pb s3 hgb
              cases hpb : asElist pb with
              | error e => rw [hpb, errorBind] at hok; exact absurd hok (by simp)
              | ok ppes =>
                obtain ⟨pp, pn, pes⟩ := ppes
                rw [hpb, okBind] at hok
                simp only [] at hok
                simp only [Except.ok.injEq, Prod.mk.injEq] at hok
                obtain ⟨rfl, rfl⟩ := hok
                have he1 : (emptyPageBlock s1 ta).memoryPageCount = s1.memoryPageCount := rfl
                have he2 : (emptyPageBlock s1 ta).filePageCount = s1.filePageCount := rfl
                refine ⟨?_, ?_, ?_, ta, tp, tn, tes, s1, rfl, Or.inl rfl⟩ <;>
                  simp [setBlk, hg1, hg2, he1, he2, hc1, hc2] <;> omega
        · rw [if_neg hemp] at hok
          cases hgt : tes.getLast? with
          | none => rw [hgt] at hok; exact absurd hok (by simp)
          | some v =>
            rw [hgt] at hok
            simp only [] at hok
            by_cases hv0 : v = 0
            · rw [if_pos hv0] at hok
              exact absurd hok (by simp)
            · rw [if_neg hv0] at hok
              simp only [Except.ok.injEq, Prod.mk.injEq] at hok
              obtain ⟨rfl, rfl⟩ := hok
              have hvmem : v ∈ tes := by
                obtain ⟨hne2, hveq⟩ := List.mem_getLast?_eq_getLast (Option.mem_def.mpr hgt)
                rw [hveq]
                exact List.getLast_mem hne2
              refine ⟨?_, ?_, ?_, ta, tp, tn, tes, s1, rfl, Or.inr hvmem⟩ <;>
                simp [setBlk, hc1, hc2] <;> omega
  · intro ps cs M sv sv2 haddr hle hsave
    unfold SaveM.save at hsave
    cases hsl : SaveM.saveLoop ps sv.cache sv.file sv.filePageCount with
    | error e => rw [hsl, errorBind] at hsave; exact absurd hsave (by simp)
    | ok r3 =>
      obtain ⟨f2, c2, fpc2⟩ := r3
      rw [hsl, okBind] at hsave
      simp only [] at hsave
      simp only [Except.ok.injEq] at hsave
      have hb := saveLoop_fpc_le ps M sv.cache sv.file f2 sv.filePageCount fpc2 c2
        haddr hle hsl
      rw [← hsave]
      simpa using hb

/-- Witness for the C6 theorem: on a store with an empty free-list the
allocator hands out `memoryPageCount` and increments it. -/
theorem c6_allocator_contract_witness :
    getEmptyPageAddr 5 c6store =
      .ok (c6store.memoryPageCount,
        { c6store with memoryPageCount := c6store.memoryPageCount + 1 }) :=
  ((c6_allocator_contract c6store 5 (by decide)).1 rfl).1

/-- Claim C7: `checkBlockCache` walks the cache from oldest to newest and
removes only clean blocks (the result is a subsequence of the cache that
keeps every dirty block), stopping once the size is back at `cacheSize`;
when there are not enough clean blocks the final size is the number of
dirty blocks, which remains above `cacheSize`.  The resulting size is
exactly `max cacheSize (number of dirty blocks)` whenever eviction runs at
all. -/
theorem c7_check_cache_evicts_only_clean (cs : Nat) (l : List SBlock) :
    (checkBlockCache cs l).Sublist l ∧
    (checkBlockCache cs l).filter (fun b => b.dirty) = l.filter (fun b => b.dirty) ∧
    (checkBlockCache cs l).length =
      (if l.length ≤ cs then l.length else max cs (l.countP (fun b => b.dirty))) := by
  unfold checkBlockCache
  by_cases hle : l.length ≤ cs
  · simp [hle]
  · have h1 : 1 ≤ l.length - cs := by omega
    have hlen := evictClean_length (l.length - cs) l h1
    have hcc := countClean_add_countDirty l
    have hc2 : countClean l ≤ l.length := List.countP_le_length _
    refine ⟨by simp [hle, evictClean_sublist], by simp [hle, evictClean_filter_dirty], ?_⟩
    simp only [if_neg hle, hlen]
    omega

/-- Claim C5 (amended): a finite-length read returns exactly `length`
bytes - the bytes stored at logical offsets `start .. start+length-1` -
whenever they exist, and fails with `Out of range read` when the chain
ends before `start + length` bytes are available; in addition (the
amendment) a zero-length read whose start offset is not strictly inside
the chain also fails with `Out of range read`, even though all zero of
its requested bytes are available. -/
theorem c5_read_exact_or_out_of_range (pages : List PageBuf) (start len fuel : Nat)
    (hfuel : pages.length < fuel) :
    (start + len ≤ pages.flatten.length → (0 < len ∨ start < pages.flatten.length) →
      readRange fuel pages start len = .ok ((pages.flatten.drop start).take len) ∧
      ((pages.flatten.drop start).take len).length = len) ∧
    (pages.flatten.length < start + len ∨ (len = 0 ∧ pages.flatten.length ≤ start) →
      readRange fuel pages start len = .error .outOfRange) := by
  constructor
  · intro hle hpos
    refine ⟨readRange_ok pages start len fuel hfuel hle hpos, ?_⟩
    simp only [List.length_take, List.length_drop]
    omega
  · intro hbad
    exact readRange_err pages start len fuel hfuel hbad

/-- Witness for the amended C5 theorem: on the chain `[1,2,3] ++ [4,5]`,
`read(1, 3)` returns exactly `[2,3,4]` and `read(4, 2)` fails with the
out-of-range error. -/
theorem c5_read_exact_or_out_of_range_witness :
    readRange 3 [[1, 2, 3], [4, 5]] 1 3 =
      .ok ((([[1, 2, 3], [4, 5]] : List PageBuf).flatten.drop 1).take 3) ∧
    readRange 3 [[1, 2, 3], [4, 5]] 4 2 = .error .outOfRange :=
  ⟨((c5_read_exact_or_out_of_range [[1, 2, 3], [4, 5]] 1 3 3 (by decide)).1
      (by decide) (by decide)).1,
    (c5_read_exact_or_out_of_range [[1, 2, 3], [4, 5]] 4 2 3 (by decide)).2 (by decide)⟩

/-- Claim C8: `save` traverses the cached blocks from oldest (least
recently used) to newest; the final `filePageCount` is the old one raised
to `addr + 1` over every cached block whose address reached it; every
dirty block's full page buffer (`pageSize` bytes) is written at byte
offset `addr * pageSize` of the file image and the block is marked clean;
clean blocks are not rewritten and every byte outside the dirty blocks'
page ranges is unchanged. -/
theorem c8_save_flushes_dirty_blocks (ps cs : Nat) (st : SaveSt) (hps : 0 < ps)
    (hlen : ∀ b ∈ st.cache, b.bytes.length = ps)
    (hopen : ∀ b ∈ st.cache, b.closed = false)
    (hnd : (st.cache.map (fun b => b.addr)).Nodup) :
    ∃ st2, save ps cs st = .ok st2 ∧
      st2.cache = checkBlockCache cs (st.cache.map (fun b => { b with dirty := false })) ∧
      st2.filePageCount =
        max st.filePageCount ((st.cache.map (fun b => b.addr + 1)).foldr max 0) ∧
      (∀ b ∈ st.cache, b.dirty = true → ∀ i, i < ps →
        st2.file.getD (b.addr * ps + i) 0 = b.bytes.getD i 0) ∧
      (∀ o : Nat,
        (∀ b ∈ st.cache, b.dirty = true → ¬(b.addr * ps ≤ o ∧ o < b.addr * ps + ps)) →
        st2.file.getD o 0 = st.file.getD o 0) := by
  obtain ⟨f2, fpc2, hrec, hmax, hcontent, hframe⟩ :=
    saveLoop_spec ps hps st.cache st.file st.filePageCount hlen hopen hnd
  refine ⟨⟨f2, checkBlockCache cs (st.cache.map (fun b => { b with dirty := false })), fpc2⟩,
    ?_, rfl, hmax, hcontent, hframe⟩
  unfold save
  rw [hrec, okBind]

/-- Witness for the C8 theorem on a two-block cache (one clean, one
dirty). -/
theorem c8_save_flushes_dirty_blocks_witness :
    ∃ st2, save 4 10 c8save = .ok st2 := by
  obtain ⟨st2, h, _⟩ := c8_save_flushes_dirty_blocks 4 10 c8save (by decide)
    (by decide) (by decide) (by decide)
  exact ⟨st2, h⟩

/-- Claim C9 (refuting evaluation, plus the post-close guards).  `close()`
on a fresh store succeeds; a second `close()` calls `file.close()` on the
already-closed handle and fails with `BadResource` - so `close` is not
idempotent, as the claim requires.  The public operations invoked after
`close()` do fail with the closed-file error. -/
theorem c9_double_close_fails :
    close c9open = .ok c9closed ∧
    close c9closed = .error .badResource ∧
    createPageOp 5 c9closed none = .error .closedFile ∧
    getPageOp c9closed 1 none = .error .closedFile ∧
    deletePageOp 5 c9closed 1 none = .error .closedFile ∧
    saveOp 4 10 c9closed c9save = .error .closedFile := by
  decide

/-- Claim C10: `Page.read` always returns a freshly allocated copy of the
stored bytes.  Every successful `pageRead` yields a `.copy` reference (the
facade builds a fresh `Uint8Array` and `read` adds a `.slice()` on top);
mutating the returned buffer never changes any page of the chain; and an
immediately repeated read of the same range returns the same bytes. -/
theorem c10_read_returns_fresh_copy (fuel start : Nat) (pages : List PageBuf)
    (len : Option Nat) (r : BufRef)
    (h : pageRead fuel pages start len = .ok r) :
    (∃ bs, r = .copy bs) ∧
    (∀ j v, mutateRet pages r j v = pages) ∧
    (∀ j v, pageRead fuel (mutateRet pages r j v) start len = .ok r) := by
  cases hua : pagedUnsafeAccess fuel pages start len with
  | error e =>
    rw [pageRead, hua, errorBind] at h
    cases h
  | ok r0 =>
    rw [pageRead, hua, okBind] at h
    injection h with h1
    subst h1
    refine ⟨⟨resolve pages r0, rfl⟩, fun j v => rfl, fun j v => ?_⟩
    show pageRead fuel pages start len = .ok (sliceRef pages r0)
    rw [pageRead, hua, okBind]

/-- Witness for the C10 theorem: reading bytes `1 .. 2` of the chain
`[[7, 8], [9]]` yields the fresh copy `[8, 9]`; writing value 5 at index 0
of that buffer leaves the chain unchanged, and re-reading the same range
afterwards returns the same bytes. -/
theorem c10_read_returns_fresh_copy_witness :
    mutateRet [[7, 8], [9]] (BufRef.copy [8, 9]) 0 5 = [[7, 8], [9]] ∧
    pageRead 5 (mutateRet [[7, 8], [9]] (BufRef.copy [8, 9]) 0 5) 1 (some 2) =
      .ok (BufRef.copy [8, 9]) :=
  ⟨(c10_read_returns_fresh_copy 5 1 [[7, 8], [9]] (some 2) (.copy [8, 9])
      (by decide)).2.1 0 5,
    (c10_read_returns_fresh_copy 5 1 [[7, 8], [9]] (some 2) (.copy [8, 9])
      (by decide)).2.2 0 5⟩

end Claims

end DenoPagesFile
